import Mathlib

/-!
Verification development for the devmem-cli code-unit extraction and
relevance-ranked search pipeline.

The definitions below are a shallow embedding of the TypeScript sources:
`src/indexer/IndexManager.ts` (regex-driven function/class extraction,
brace matching, keyword derivation, project indexing),
`src/db/Database.ts` (SQLite-backed store: projects, code entries,
tiered LIKE-based relevance search) and `src/query/QueryManager.ts`
(search and code retrieval).  Text is modelled as `List Char`; the SQLite
store is modelled as explicit lists with the autoincrement id counters
made explicit.
-/

namespace Devmem

/-! ### Character helpers -/

/-- The character `\x7b` (opening curly brace). -/
def lbrace : Char := Char.ofNat 123

/-- The character `\x7d` (closing curly brace). -/
def rbrace : Char := Char.ofNat 125

/-- The double-quote character. -/
def dquote : Char := Char.ofNat 34

/-- The single-quote character. -/
def squote : Char := Char.ofNat 39

/-- The backslash character. -/
def backslash : Char := Char.ofNat 92

/-- The newline character. -/
def nl : Char := Char.ofNat 10

/-- JavaScript regex `\w`: ASCII letters, digits and underscore. -/
def isWordChar (c : Char) : Bool := c.isAlphanum || c = '_'

/-- JavaScript regex `\s` (the whitespace characters relevant to source text):
space, tab, newline, carriage return, vertical tab, form feed. -/
def isSpace (c : Char) : Bool :=
  c = ' ' || c = Char.ofNat 9 || c = nl || c = Char.ofNat 13 ||
  c = Char.ofNat 11 || c = Char.ofNat 12

/-- ASCII lower-casing of a character, as `String.prototype.toLowerCase`
acts on the ASCII identifier characters produced by the tokenizer, and as
SQLite `LIKE` folds case for ASCII. -/
def lowerChar (c : Char) : Char :=
  if 65 ≤ c.toNat ∧ c.toNat ≤ 90 then Char.ofNat (c.toNat + 32) else c

/-! ### Brace matching (`IndexManager.findClosingBrace`)

The TypeScript loop scans from `startIndex` keeping `openBraces`
(a counter incremented on `\x7b`, decremented on `\x7d`), an `inString`
flag with the active `stringChar`, and tests `content[i-1] !== '\\'`
to skip escaped quotes.  `fcbAux` carries the remaining characters, the
current absolute index `i`, the depth, the string state, and the
previously consumed character (`none` at the very start, matching the
out-of-bounds `content[-1]` read). -/

def fcbAux : List Char → Nat → Int → Bool → Char → Option Char → Nat
  | [], i, _, _, _, _ => i
  | c :: cs, i, depth, inStr, sc, prev =>
    if inStr then
      if c = sc ∧ prev ≠ some backslash then
        fcbAux cs (i + 1) depth false sc (some c)
      else
        fcbAux cs (i + 1) depth true sc (some c)
    else if c = dquote ∨ c = squote then
      fcbAux cs (i + 1) depth true c (some c)
    else if c = lbrace then
      fcbAux cs (i + 1) (depth + 1) false sc (some c)
    else if c = rbrace then
      if depth - 1 = 0 then i + 1
      else fcbAux cs (i + 1) (depth - 1) false sc (some c)
    else
      fcbAux cs (i + 1) depth false sc (some c)

/-- `IndexManager.findClosingBrace`: offset immediately after the `\x7d`
that returns the nesting depth to zero, or `content.length` when the scan
runs off the end.  The initial `stringChar` is never read before being
set (the JS code initialises it to an empty string). -/
def findClosingBrace (content : List Char) (startIndex : Nat) : Nat :=
  fcbAux (content.drop startIndex) startIndex 0 false dquote none

/-! ### Regex matchers

The function regex is
`(async\s+)?function\s+(\w+)|const\s+(\w+)\s*=\s*(async\s+)?\(|(\w+)\s*\([^)]*\)\s*\x7b`
and the class regex is `class\s+(\w+)`, executed with the `g` flag:
`exec` finds the leftmost match at or after `lastIndex`, alternatives
are tried left to right at each candidate position, and `lastIndex`
advances past the whole match.  Each matcher below returns the captured
name and the total number of characters consumed by the match. -/

/-- Match a literal character sequence, returning the remainder. -/
def dropLit : List Char → List Char → Option (List Char)
  | [], s => some s
  | _ :: _, [] => none
  | c :: cs, d :: ds => if d = c then dropLit cs ds else none

/-- Alternative (a) without the optional `async` prefix:
`function\s+(\w+)`. -/
def matchFunctionTail (s : List Char) : Option (List Char × Nat) :=
  match dropLit ("function".toList) s with
  | none => none
  | some s1 =>
    let (sp, s2) := s1.span isSpace
    if sp.isEmpty then none
    else
      let (w, _) := s2.span isWordChar
      if w.isEmpty then none
      else some (w, 8 + sp.length + w.length)

/-- Alternative (a): `(async\s+)?function\s+(\w+)`. -/
def matchAlt1 (s : List Char) : Option (List Char × Nat) :=
  match
    (match dropLit ("async".toList) s with
     | none => none
     | some s1 =>
       let (sp, s2) := s1.span isSpace
       if sp.isEmpty then none
       else
         match matchFunctionTail s2 with
         | none => none
         | some (w, n) => some (w, 5 + sp.length + n)) with
  | some r => some r
  | none => matchFunctionTail s

/-- Alternative (b): `const\s+(\w+)\s*=\s*(async\s+)?\(`. -/
def matchAlt2 (s : List Char) : Option (List Char × Nat) :=
  match dropLit ("const".toList) s with
  | none => none
  | some s1 =>
    let (sp1, s2) := s1.span isSpace
    if sp1.isEmpty then none
    else
      let (w, s3) := s2.span isWordChar
      if w.isEmpty then none
      else
        let (sp2, s4) := s3.span isSpace
        match s4 with
        | '=' :: s5 =>
          let (sp3, s6) := s5.span isSpace
          let base := 5 + sp1.length + w.length + sp2.length + 1 + sp3.length
          match
            (match dropLit ("async".toList) s6 with
             | none => none
             | some s7 =>
               let (sp4, s8) := s7.span isSpace
               if sp4.isEmpty then none
               else
                 match s8 with
                 | '(' :: _ => some (w, base + 5 + sp4.length + 1)
                 | _ => none) with
          | some r => some r
          | none =>
            match s6 with
            | '(' :: _ => some (w, base + 1)
            | _ => none
        | _ => none

/-- Alternative (c): `(\w+)\s*\([^)]*\)\s*\x7b`. -/
def matchAlt3 (s : List Char) : Option (List Char × Nat) :=
  let (w, s1) := s.span isWordChar
  if w.isEmpty then none
  else
    let (sp1, s2) := s1.span isSpace
    match s2 with
    | '(' :: s3 =>
      let (inner, s4) := s3.span (fun c => !(c = ')'))
      match s4 with
      | ')' :: s5 =>
        let (sp2, s6) := s5.span isSpace
        match s6 with
        | c :: _ =>
          if c = lbrace then
            some (w, w.length + sp1.length + 1 + inner.length + 1 + sp2.length + 1)
          else none
        | [] => none
      | _ => none
    | _ => none

/-- The full function regex at one position: alternatives in order. -/
def tryMatchFunction (s : List Char) : Option (List Char × Nat) :=
  match matchAlt1 s with
  | some r => some r
  | none =>
    match matchAlt2 s with
    | some r => some r
    | none => matchAlt3 s

/-- The class regex `class\s+(\w+)` at one position. -/
def tryMatchClass (s : List Char) : Option (List Char × Nat) :=
  match dropLit ("class".toList) s with
  | none => none
  | some s1 =>
    let (sp, s2) := s1.span isSpace
    if sp.isEmpty then none
    else
      let (w, _) := s2.span isWordChar
      if w.isEmpty then none
      else some (w, 5 + sp.length + w.length)

/-- `exec` position scan: find the leftmost position at or after `p`
(whose suffix is the second argument) where the matcher fires.  Neither
regex can match the empty suffix, so the scan stops at end of text. -/
def scanFrom (try_ : List Char → Option (List Char × Nat)) :
    Nat → List Char → Option (Nat × List Char × Nat)
  | _, [] => none
  | p, c :: rest =>
    match try_ (c :: rest) with
    | some (w, len) => some (p, w, len)
    | none => scanFrom try_ (p + 1) rest

/-! ### Extraction (`IndexManager.extractFunctions` / `extractClasses`) -/

/-- An extracted function- or class-like code unit, with the fields
computed in the TypeScript extraction loop.  `keywords` is the
space-joined derived keyword string. -/
structure FunctionUnit where
  name : List Char
  code : List Char
  lineStart : Nat
  lineEnd : Nat
  keywords : List Char
deriving DecidableEq

/-- Keyword derivation is defined below; forward-declared here as the
pipeline from `IndexManager.extractKeywords`. -/
def rawTokensGo (cur : List Char) : List Char → List (List Char)
  | [] => if cur.isEmpty then [] else [cur.reverse]
  | c :: cs =>
    if isWordChar c then rawTokensGo (c :: cur) cs
    else if cur.isEmpty then rawTokensGo [] cs
    else cur.reverse :: rawTokensGo [] cs

/-- Maximal runs of `\w` characters in the text. -/
def rawTokens (l : List Char) : List (List Char) := rawTokensGo [] l

/-- First character of a `\b[a-zA-Z_]\w*\b` token. -/
def isIdentStart (c : Char) : Bool := c.isAlpha || c = '_'

/-- The tokens produced by `code.match(/\b[a-zA-Z_]\w*\b/g)`: maximal
word-character runs whose first character is a letter or underscore. -/
def identTokens (code : List Char) : List (List Char) :=
  (rawTokens code).filter (fun w =>
    match w with
    | [] => false
    | c :: _ => isIdentStart c)

/-- The stoplist from `IndexManager.extractKeywords` (checked against
the original-cased token). -/
def excludedWords : List (List Char) :=
  ["const".toList, "let".toList, "var".toList, "if".toList, "else".toList,
   "for".toList, "while".toList, "return".toList, "function".toList,
   "class".toList]

/-- Tokens surviving the stoplist and length filters (applied to the
original-cased token, as in the source). -/
def keptWords (code : List Char) : List (List Char) :=
  (identTokens code).filter (fun w =>
    decide (w ∉ excludedWords) && decide (2 < w.length))

/-- JS `Set.add`: append if not already present (insertion order). -/
def insertIfAbsent (acc : List (List Char)) (w : List Char) :
    List (List Char) :=
  if w ∈ acc then acc else acc ++ [w]

/-- The deduplicated, lower-cased keyword list, in first-insertion
order, as produced by the `Set` in `extractKeywords`. -/
def keywordList (code : List Char) : List (List Char) :=
  ((keptWords code).map (fun w => w.map lowerChar)).foldl insertIfAbsent []

/-- `Array.from(keywords).join(' ')`. -/
def joinSpaces (ks : List (List Char)) : List Char :=
  List.intercalate [' '] ks

/-- `IndexManager.extractKeywords`: the stored keyword string. -/
def extractKeywords (code : List Char) : List Char :=
  joinSpaces (keywordList code)

/-- The shared extraction loop body: `exec` from `lastIndex`, build the
unit exactly as lines 143–158 / 176–189 of `IndexManager.ts` do
(`lineStart` counts lines before the match, the body runs to
`findClosingBrace`, `lineEnd = lineStart + code.split('\n').length`),
then continue from the end of the regex match.  `lastIndex` strictly
increases by at least one each round, so fuel `content.length + 1`
never runs out. -/
def extractUnitsAux (try_ : List Char → Option (List Char × Nat))
    (content : List Char) : Nat → Nat → List FunctionUnit
  | 0, _ => []
  | fuel + 1, lastIndex =>
    match scanFrom try_ lastIndex (content.drop lastIndex) with
    | none => []
    | some (idx, nm, len) =>
      let lineStart := 1 + (content.take idx).count nl
      let endIndex := findClosingBrace content idx
      let code := (content.take endIndex).drop idx
      { name := nm
        code := code
        lineStart := lineStart
        lineEnd := lineStart + (code.count nl + 1)
        keywords := extractKeywords code } ::
        extractUnitsAux try_ content fuel (idx + len)

/-- `IndexManager.extractFunctions`. -/
def extractFunctions (content : List Char) : List FunctionUnit :=
  extractUnitsAux tryMatchFunction content (content.length + 1) 0

/-- `IndexManager.extractClasses`. -/
def extractClasses (content : List Char) : List FunctionUnit :=
  extractUnitsAux tryMatchClass content (content.length + 1) 0

/-! ### Per-file entry records (`IndexManager.indexProject`, lines 66–96)

For each extracted unit, `indexProject` stores a record whose `snippet`
is `code.slice(0, 200)` and whose `type` is `function` or `class`. -/

/-- A code-entry record before the store assigns ids. -/
structure PreEntry where
  name : List Char
  type : List Char
  code : List Char
  snippet : List Char
  lineStart : Nat
  lineEnd : Nat
  keywords : List Char
deriving DecidableEq

/-- Build the stored record from an extracted unit (`fn.code.slice(0, 200)`
becomes the snippet). -/
def toPreEntry (ty : List Char) (u : FunctionUnit) : PreEntry :=
  { name := u.name
    type := ty
    code := u.code
    snippet := u.code.take 200
    lineStart := u.lineStart
    lineEnd := u.lineEnd
    keywords := u.keywords }

/-- All records `indexProject` produces for one file: functions first,
then classes, in extraction order. -/
def indexFileUnits (content : List Char) : List PreEntry :=
  (extractFunctions content).map (toPreEntry ("function".toList)) ++
    (extractClasses content).map (toPreEntry ("class".toList))

/-! ### The store (`Database.ts`)

Projects and code entries live in two tables with `AUTOINCREMENT`
integer primary keys, modelled by explicit lists plus the next-id
counters (SQLite's `AUTOINCREMENT` never reuses an id). -/

/-- A row of the `projects` table. -/
structure DBProject where
  id : Nat
  name : List Char
  path : List Char
  fileCount : Nat
deriving DecidableEq

/-- A row of the `code_entries` table. -/
structure Entry where
  id : Nat
  projectId : Nat
  filePath : List Char
  name : List Char
  type : List Char
  code : List Char
  snippet : List Char
  lineStart : Nat
  lineEnd : Nat
  keywords : List Char
deriving DecidableEq

/-- The store state. -/
structure DB where
  projects : List DBProject
  entries : List Entry
  nextProjectId : Nat
  nextEntryId : Nat
deriving DecidableEq

/-- The empty store; SQLite rowids start at 1. -/
def emptyDB : DB := ⟨[], [], 1, 1⟩

/-- `Database.addProject`: `INSERT OR REPLACE INTO projects (name, path,
indexed_at)`.  On a `name` conflict SQLite's `REPLACE` resolution deletes
the conflicting row and inserts a brand-new row, which under
`AUTOINCREMENT` receives a fresh id; `lastInsertRowid` (the returned id)
is the new row's id.  `file_count` takes its column default 0. -/
def addProject (db : DB) (name path : List Char) : Nat × DB :=
  let pid := db.nextProjectId
  (pid,
    { db with
      projects := db.projects.filter (fun p => decide (p.name ≠ name)) ++
        [⟨pid, name, path, 0⟩]
      nextProjectId := pid + 1 })

/-- `Database.clearProjectEntries`. -/
def clearProjectEntries (db : DB) (pid : Nat) : DB :=
  { db with entries := db.entries.filter (fun e => decide (e.projectId ≠ pid)) }

/-- `Database.addCodeEntry`. -/
def addCodeEntry (db : DB) (pid : Nat) (file : List Char) (u : PreEntry) : DB :=
  { db with
    entries := db.entries ++
      [⟨db.nextEntryId, pid, file, u.name, u.type, u.code, u.snippet,
        u.lineStart, u.lineEnd, u.keywords⟩]
    nextEntryId := db.nextEntryId + 1 }

/-- `Database.updateProjectFileCount`. -/
def updateProjectFileCount (db : DB) (pid n : Nat) : DB :=
  { db with
    projects := db.projects.map (fun p =>
      if p.id = pid then { p with fileCount := n } else p) }

/-- `Database.getProject`: `SELECT * FROM projects WHERE name = ?`. -/
def getProject (db : DB) (name : List Char) : Option DBProject :=
  db.projects.find? (fun p => decide (p.name = name))

/-- `Database.getCodeEntry`: `SELECT * FROM code_entries WHERE id = ?`. -/
def getCodeEntryD (db : DB) (id : Nat) : Option Entry :=
  db.entries.find? (fun e => decide (e.id = id))

/-- `Database.removeProject`: throws `Project not found` before touching
the store when the name is absent; otherwise deletes the project's
entries and then the project row. -/
def removeProject (db : DB) (name : List Char) : Except (List Char) DB :=
  match getProject db name with
  | none => .error ("Project not found: ".toList ++ name)
  | some p =>
    .ok { db with
          entries := db.entries.filter (fun e => decide (e.projectId ≠ p.id))
          projects := db.projects.filter (fun q => decide (q.id ≠ p.id)) }

/-- `IndexManager.indexProject`, with the file-discovery and file-read
collaborators supplied as an explicit `(path, content)` list and the
project name already resolved (`options.name || basename(path)`).
Add-or-replace the project row, clear the entries carrying the id the
insert returned, extract and insert each file's units (functions then
classes), and finally record the file count. -/
def indexProject (db : DB) (projectName path : List Char)
    (files : List (List Char × List Char)) : DB :=
  let pd := addProject db projectName path
  let db2 := clearProjectEntries pd.2 pd.1
  let db3 := files.foldl (fun d f =>
    (indexFileUnits f.2).foldl (fun d' u => addCodeEntry d' pd.1 f.1 u) d) db2
  updateProjectFileCount db3 pd.1 files.length

/-- `IndexManager.updateProject`: throws `Project not found` when the
name is absent, otherwise re-indexes at the stored path. -/
def updateProject (db : DB) (name : List Char)
    (files : List (List Char × List Char)) : Except (List Char) DB :=
  match getProject db name with
  | none => .error ("Project not found: ".toList ++ name)
  | some p => .ok (indexProject db name p.path files)

/-- `QueryManager.getCode`: throws `Code entry not found` when the id is
absent, otherwise returns the entry's `code`. -/
def getCode (db : DB) (id : Nat) : Except (List Char) (List Char) :=
  match getCodeEntryD db id with
  | none => .error ("Code entry not found".toList)
  | some e => .ok e.code

/-- A thrown exception aborts the operation, so the caller's store is
whatever it was before the call; on success it is the returned state. -/
def stateAfter (r : Except (List Char) DB) (db : DB) : DB :=
  match r with
  | .ok d => d
  | .error _ => db

/-! ### Search (`Database.searchCode`)

SQLite `LIKE` with patterns `'%' || query || '%'`: `%` matches any
sequence, `_` any single character, plain characters compare
case-insensitively on ASCII. -/

/-- SQLite `LIKE` pattern matching, with an explicit fuel argument to
keep the recursion structural.  Every recursive call shrinks
`pat.length + s.length` by at least one while the fuel shrinks by
exactly one, so with fuel `pat.length + s.length + 1` the fuel-exhausted
branch is never reached. -/
def likeMatchF : Nat → List Char → List Char → Bool
  | 0, _, _ => false
  | fuel + 1, pat, s =>
    match pat, s with
    | [], [] => true
    | [], _ :: _ => false
    | p :: ps, s =>
      if p = '%' then
        likeMatchF fuel ps s ||
          (match s with
           | [] => false
           | _ :: s2 => likeMatchF fuel (p :: ps) s2)
      else
        match s with
        | [] => false
        | c :: s2 =>
          if p = '_' then likeMatchF fuel ps s2
          else lowerChar c = lowerChar p && likeMatchF fuel ps s2

/-- SQLite `LIKE`: `%` matches any sequence, `_` any single character,
other characters compare case-insensitively on ASCII. -/
def likeMatch (pat s : List Char) : Bool :=
  likeMatchF (pat.length + s.length + 1) pat s

/-- `field LIKE '%' || q || '%'`. -/
def likeContains (q field : List Char) : Bool :=
  likeMatch ('%' :: q ++ ['%']) field

/-- The `CASE` relevance expression of `searchCode`: first matching tier
wins. -/
def relevance (q : List Char) (e : Entry) : Nat :=
  if likeContains q e.name then 100
  else if likeContains q e.keywords then 50
  else if likeContains q e.snippet then 25
  else 10

/-- The `WHERE` candidate filter of `searchCode`:
`name LIKE ? OR keywords LIKE ? OR snippet LIKE ?`. -/
def isCandidate (q : List Char) (e : Entry) : Bool :=
  likeContains q e.name || likeContains q e.keywords || likeContains q e.snippet

/-- A row of the `searchCode` result set. -/
structure SearchRow where
  entry : Entry
  projectName : List Char
  relevance : Nat
deriving DecidableEq

/-- The inner `JOIN projects p ON ce.project_id = p.id`. -/
def joinedRows (db : DB) : List (Entry × List Char) :=
  db.entries.filterMap (fun e =>
    (db.projects.find? (fun p => decide (p.id = e.projectId))).map
      (fun p => (e, p.name)))

/-- The composed `WHERE` clause: candidate filter plus the optional
`p.name = ?` and `ce.type = ?` filters. -/
def passesFilters (q : List Char) (pf tf : Option (List Char))
    (r : Entry × List Char) : Bool :=
  isCandidate q r.1 &&
    (match pf with
     | none => true
     | some n => decide (r.2 = n)) &&
    (match tf with
     | none => true
     | some t => decide (r.1.type = t))

/-- The filtered rows with their computed relevance. -/
def scoredRows (db : DB) (q : List Char) (pf tf : Option (List Char)) :
    List SearchRow :=
  ((joinedRows db).filter (passesFilters q pf tf)).map
    (fun r => ⟨r.1, r.2, relevance q r.1⟩)

/-- Byte-order (codepoint) lexicographic `≤` on text, the order SQLite's
default `BINARY` collation gives `ORDER BY ce.name` on UTF-8 text. -/
def lexLe : List Char → List Char → Bool
  | [], _ => true
  | _ :: _, [] => false
  | a :: as, b :: bs =>
    if a.toNat = b.toNat then lexLe as bs else decide (a.toNat < b.toNat)

/-- `ORDER BY relevance DESC, ce.name`: row `a` may precede row `b`. -/
def rowLe (a b : SearchRow) : Prop :=
  b.relevance < a.relevance ∨
    (a.relevance = b.relevance ∧ lexLe a.entry.name b.entry.name = true)

instance : DecidableRel rowLe := fun _ _ =>
  inferInstanceAs (Decidable (_ ∨ _ ∧ _))

/-- The full sorted result set, before `LIMIT`. -/
def searchAll (db : DB) (q : List Char) (pf tf : Option (List Char)) :
    List SearchRow :=
  List.insertionSort rowLe (scoredRows db q pf tf)

/-- `Database.searchCode`: filter, score, order, then truncate. -/
def searchCode (db : DB) (q : List Char) (pf tf : Option (List Char))
    (lim : Nat) : List SearchRow :=
  (searchAll db q pf tf).take lim

/-! ### Lemmas about the extraction loop -/

/-- Every unit the extraction loop emits has a 1-based start line and an
end line computed as `lineStart + code.split('\n').length`, i.e. the
start line plus the newline count of the body plus one. -/
theorem extractUnitsAux_shape (t : List Char → Option (List Char × Nat))
    (content : List Char) :
    ∀ fuel li u, u ∈ extractUnitsAux t content fuel li →
      1 ≤ u.lineStart ∧ u.lineEnd = u.lineStart + (u.code.count nl + 1) := by
  intro fuel
  induction fuel with
  | zero =>
    intro li u h
    simp [extractUnitsAux] at h
  | succ n ih =>
    intro li u h
    rw [extractUnitsAux] at h
    rcases hm : scanFrom t li (content.drop li) with _ | ⟨idx, nm, len⟩ <;>
      rw [hm] at h
    · simp at h
    · simp only [List.mem_cons] at h
      rcases h with h | h
      · subst h
        exact ⟨Nat.le_add_right 1 _, rfl⟩
      · exact ih _ u h

/-- Specialisation to `extractFunctions` and `extractClasses`. -/
theorem extract_shape (content : List Char) (u : FunctionUnit)
    (h : u ∈ extractFunctions content ∨ u ∈ extractClasses content) :
    1 ≤ u.lineStart ∧ u.lineEnd = u.lineStart + (u.code.count nl + 1) := by
  rcases h with h | h
  · exact extractUnitsAux_shape tryMatchFunction content _ _ u h
  · exact extractUnitsAux_shape tryMatchClass content _ _ u h

/-! ### Lemmas about the brace-matching scan -/

/-- While the scan is in string-literal mode, characters other than the
active quote (and, in particular, `\x7b` and `\x7d`) are consumed
without touching the depth counter; an unescaped matching quote exits
string mode.  Consuming the whole literal body `t` followed by its
closing quote leaves the scan just past the quote, depth unchanged. -/
theorem fcbAux_stringScan (q : Char) :
    ∀ (t l : List Char) (i : Nat) (d : Int) (prev : Option Char),
      q ∉ t → backslash ∉ t → prev ≠ some backslash →
      fcbAux (t ++ q :: l) i d true q prev =
        fcbAux l (i + t.length + 1) d false q (some q) := by
  intro t
  induction t with
  | nil =>
    intro l i d prev _ _ hp
    show fcbAux (q :: l) i d true q prev = _
    rw [fcbAux, if_pos rfl, if_pos ⟨rfl, hp⟩]
    simp
  | cons c t ih =>
    intro l i d prev hq hb hp
    have hcq : ¬(c = q ∧ prev ≠ some backslash) := by
      rintro ⟨rfl, -⟩
      exact hq (List.mem_cons_self c t)
    have hcb : c ≠ backslash := by
      intro h
      exact hb (h ▸ List.mem_cons_self c t)
    show fcbAux (c :: (t ++ q :: l)) i d true q prev = _
    rw [fcbAux, if_pos rfl, if_neg hcq]
    rw [ih l (i + 1) d (some c) (fun h => hq (List.mem_cons_of_mem c h))
      (fun h => hb (List.mem_cons_of_mem c h)) (by simpa using hcb)]
    congr 1
    simp
    omega

/-- Single scan step: `\x7b` outside a string increments the depth. -/
theorem fcbAux_step_open (cs : List Char) (i : Nat) (d : Int) (sc : Char)
    (prev : Option Char) :
    fcbAux (lbrace :: cs) i d false sc prev =
      fcbAux cs (i + 1) (d + 1) false sc (some lbrace) := by
  rw [fcbAux, if_neg (by simp), if_neg (by decide), if_pos rfl]

/-- Single scan step: a quote outside a string enters string mode. -/
theorem fcbAux_step_quote (c : Char) (cs : List Char) (i : Nat) (d : Int)
    (sc : Char) (prev : Option Char) (h : c = dquote ∨ c = squote) :
    fcbAux (c :: cs) i d false sc prev =
      fcbAux cs (i + 1) d true c (some c) := by
  rw [fcbAux, if_neg (by simp), if_pos h]

/-- Single scan step: `\x7d` outside a string at depth 1 ends the scan at
the offset immediately past it. -/
theorem fcbAux_step_close (cs : List Char) (i : Nat) (sc : Char)
    (prev : Option Char) :
    fcbAux (rbrace :: cs) i 1 false sc prev = i + 1 := by
  rw [fcbAux, if_neg (by simp), if_neg (by decide), if_neg (by decide)]
  norm_num

/-! ### Concrete inputs used by the claims -/

/-- The C1 example text `function f() \x7b const s = "\x7b"; return s; \x7d`. -/
def c1input : List Char :=
  "function f() \x7b const s = \"\x7b\"; return s; \x7d".toList

/-- The C10 example text `if (x) \x7b y(); \x7d`. -/
def c10input : List Char := "if (x) \x7b y(); \x7d".toList

/-- The one-line C5 example text `a() \x7b\x7d`. -/
def c5input : List Char := "a() \x7b\x7d".toList

/-- The unit extracted from `c5input`. -/
def c5unit : FunctionUnit := ⟨"a".toList, c5input, 1, 2, []⟩

/-! ### Claim theorems -/

/-- C1: on `function f() \x7b const s = "\x7b"; return s; \x7d` the
extractor emits exactly one `CodeUnit`, named `f`, whose `rawText` runs
from the match start through the final matching `\x7d` (here the whole
text, with `lineStart` 1); and in general, a `\x7b`-opened block whose
body is a quoted string literal is scanned ignoring the braces inside
the literal, the scan ending at the offset immediately after the `\x7d`
that returns the depth to zero (here `t.length + 4`). -/
theorem c1_braceMatching_stringLiterals :
    extractFunctions c1input = [⟨"f".toList, c1input, 1, 2, []⟩] ∧
    ∀ (q : Char) (t rest : List Char), q = dquote ∨ q = squote → q ∉ t →
      backslash ∉ t →
      findClosingBrace (lbrace :: q :: (t ++ q :: rbrace :: rest)) 0 =
        t.length + 4 := by
  constructor
  · decide
  · intro q t rest hq hqt hbt
    unfold findClosingBrace
    rw [List.drop_zero]
    show fcbAux (lbrace :: q :: (t ++ q :: rbrace :: rest)) 0 0 false dquote
      none = _
    rw [fcbAux_step_open, fcbAux_step_quote q _ _ _ _ _ hq,
      fcbAux_stringScan q t _ _ _ _ hqt hbt (by
        rcases hq with rfl | rfl <;> decide)]
    have h1 : (0 : Int) + 1 = 1 := by norm_num
    have h2 : 0 + 1 + 1 + t.length + 1 = t.length + 3 := by omega
    rw [h1, h2, fcbAux_step_close]

/-- C1 witness: the general brace-matching statement applied to the
string body `a\x7bb` inside double quotes. -/
theorem c1_braceMatching_stringLiterals_witness :
    findClosingBrace
      (lbrace :: dquote :: (['a', lbrace, 'b'] ++ dquote :: rbrace :: [])) 0 =
      7 :=
  c1_braceMatching_stringLiterals.2 dquote ['a', lbrace, 'b'] []
    (Or.inl rfl) (by decide) (by decide)

/-- C5 counterexample: for the one-line input `a() \x7b\x7d` the emitted
unit has `lineStart = 1`, a body with zero newlines, and `lineEnd = 2`,
so `lineEnd` is *not* `lineStart` plus the newline count of the body. -/
theorem c5_lineEnd_counterexample :
    ∃ u ∈ extractFunctions c5input,
      u.lineEnd ≠ u.lineStart + u.code.count nl := by decide

/-- C5 (amended): for every source text, every emitted function or class
unit satisfies `lineEnd = lineStart + (newlines in rawText) + 1`
(the extra one coming from `code.split('\n').length`). -/
theorem c5_lineEnd_additive (content : List Char) (u : FunctionUnit)
    (h : u ∈ extractFunctions content ∨ u ∈ extractClasses content) :
    u.lineEnd = u.lineStart + (u.code.count nl + 1) :=
  (extract_shape content u h).2

/-- C5 witness: the amended arithmetic at the concrete unit extracted
from `a() \x7b\x7d`. -/
theorem c5_lineEnd_additive_witness :
    c5unit.lineEnd = c5unit.lineStart + (c5unit.code.count nl + 1) :=
  c5_lineEnd_additive c5input c5unit (Or.inl (by decide))

/-- C7: every emitted `CodeUnit` record has `lineStart ≥ 1`,
`lineEnd ≥ lineStart`, a snippet that is a prefix of `rawText`, and a
snippet of at most 200 characters. -/
theorem c7_codeUnit_invariants (content : List Char) (e : PreEntry)
    (h : e ∈ indexFileUnits content) :
    1 ≤ e.lineStart ∧ e.lineStart ≤ e.lineEnd ∧
      (∃ rest, e.snippet ++ rest = e.code) ∧ e.snippet.length ≤ 200 := by
  have main : ∀ (ty : List Char) (u : FunctionUnit),
      (1 ≤ u.lineStart ∧ u.lineEnd = u.lineStart + (u.code.count nl + 1)) →
      e = toPreEntry ty u →
      1 ≤ e.lineStart ∧ e.lineStart ≤ e.lineEnd ∧
        (∃ rest, e.snippet ++ rest = e.code) ∧ e.snippet.length ≤ 200 := by
    rintro ty u ⟨h1, h2⟩ rfl
    refine ⟨h1, ?_, ⟨u.code.drop 200, List.take_append_drop 200 u.code⟩, ?_⟩
    · show u.lineStart ≤ u.lineEnd
      omega
    · show (u.code.take 200).length ≤ 200
      rw [List.length_take]
      exact min_le_left _ _
  rcases List.mem_append.1 h with h | h <;> rcases List.mem_map.1 h with
    ⟨u, hu, he⟩
  · exact main _ u
      (extractUnitsAux_shape tryMatchFunction content _ _ u hu) he.symm
  · exact main _ u
      (extractUnitsAux_shape tryMatchClass content _ _ u hu) he.symm

/-- C7 witness: the invariants at the record produced for `a() \x7b\x7d`. -/
theorem c7_codeUnit_invariants_witness :
    1 ≤ (toPreEntry ("function".toList) c5unit).lineStart ∧
      (toPreEntry ("function".toList) c5unit).lineStart ≤
        (toPreEntry ("function".toList) c5unit).lineEnd ∧
      (∃ rest, (toPreEntry ("function".toList) c5unit).snippet ++ rest =
        (toPreEntry ("function".toList) c5unit).code) ∧
      (toPreEntry ("function".toList) c5unit).snippet.length ≤ 200 :=
  c7_codeUnit_invariants c5input (toPreEntry ("function".toList) c5unit)
    (by decide)

/-- C10: the third alternative of the function regex matches the bare
identifier `if` followed by `(x)` and `\x7b`, so `if (x) \x7b y(); \x7d`
is extracted as exactly one function unit named `if` whose `rawText`
spans from the `if` keyword through the matching closing brace. -/
theorem c10_controlFlow_extracted :
    extractFunctions c10input = [⟨"if".toList, c10input, 1, 2, []⟩] := by
  decide

/-! ### Lemmas about keyword derivation -/

/-- Set insertion keeps the accumulator duplicate-free. -/
theorem insertIfAbsent_nodup (acc : List (List Char)) (w : List Char)
    (h : acc.Nodup) : (insertIfAbsent acc w).Nodup := by
  unfold insertIfAbsent
  split
  · exact h
  · rw [List.nodup_append]
    refine ⟨h, List.nodup_singleton w, ?_⟩
    rw [List.disjoint_singleton]
    assumption

/-- Folding set insertion over any token list keeps the accumulator
duplicate-free. -/
theorem foldl_insertIfAbsent_nodup :
    ∀ (l : List (List Char)) (acc : List (List Char)), acc.Nodup →
      (l.foldl insertIfAbsent acc).Nodup
  | [], _, h => h
  | w :: l, acc, h =>
    foldl_insertIfAbsent_nodup l (insertIfAbsent acc w)
      (insertIfAbsent_nodup acc w h)

/-- Everything in the folded accumulator came from the initial
accumulator or from the token list. -/
theorem mem_foldl_insertIfAbsent :
    ∀ (l acc : List (List Char)) (x : List Char),
      x ∈ l.foldl insertIfAbsent acc → x ∈ acc ∨ x ∈ l := by
  intro l
  induction l with
  | nil =>
    intro acc x h
    exact Or.inl h
  | cons w l ih =>
    intro acc x h
    rcases ih (insertIfAbsent acc w) x h with h2 | h2
    · unfold insertIfAbsent at h2
      split at h2
      · exact Or.inl h2
      · rcases List.mem_append.1 h2 with h3 | h3
        · exact Or.inl h3
        · right
          rw [List.mem_singleton.1 h3]
          exact List.mem_cons_self w l
    · exact Or.inr (List.mem_cons_of_mem w h2)

/-- C6 counterexample: the stoplist check compares the original-cased
token, so input `Return` produces the keyword `return`, which is a
stoplist word — the derived keywords are not always stoplist-free. -/
theorem c6_keywords_counterexample :
    keywordList ("Return".toList) = ["return".toList] ∧
      "return".toList ∈ excludedWords ∧
      extractKeywords ("Return".toList) = "return".toList := by decide

/-- C6 (amended): the derived keyword string is the space-join of a
duplicate-free list of lower-cased tokens, each longer than two
characters and each obtained by lower-casing a source token whose
original-cased form is not in the stoplist.  (A stoplist word can still
appear when a differently-cased variant occurs in the source.) -/
theorem c6_keywords_filtered (code : List Char) :
    (keywordList code).Nodup ∧
      (∀ t, t ∈ keywordList code →
        2 < t.length ∧ ∃ w, w ∈ identTokens code ∧ w ∉ excludedWords ∧
          2 < w.length ∧ t = w.map lowerChar) ∧
      extractKeywords code = joinSpaces (keywordList code) := by
  refine ⟨foldl_insertIfAbsent_nodup _ [] List.nodup_nil, ?_, rfl⟩
  intro t ht
  rcases mem_foldl_insertIfAbsent _ [] t ht with h | h
  · simp at h
  · rcases List.mem_map.1 h with ⟨w, hw, rfl⟩
    rcases List.mem_filter.1 hw with ⟨hw1, hw2⟩
    rw [Bool.and_eq_true, decide_eq_true_eq, decide_eq_true_eq] at hw2
    refine ⟨?_, w, hw1, hw2.1, hw2.2, rfl⟩
    rw [List.length_map]
    exact hw2.2

/-- C6 witness: the amended statement applied to the token `foobar`
derived from `Return fooBar`. -/
theorem c6_keywords_filtered_witness :
    2 < ("foobar".toList).length ∧
      ∃ w, w ∈ identTokens ("Return fooBar".toList) ∧ w ∉ excludedWords ∧
        2 < w.length ∧ "foobar".toList = w.map lowerChar :=
  (c6_keywords_filtered ("Return fooBar".toList)).2.1 ("foobar".toList)
    (by decide)

/-! ### Lemmas about the result ordering -/

/-- The byte-order comparison is total. -/
theorem lexLe_total : ∀ a b : List Char, lexLe a b = true ∨ lexLe b a = true
  | [], _ => Or.inl rfl
  | _ :: _, [] => Or.inr rfl
  | x :: xs, y :: ys => by
    by_cases hxy : x.toNat = y.toNat
    · rcases lexLe_total xs ys with h | h
      · left
        rw [lexLe, if_pos hxy]
        exact h
      · right
        rw [lexLe, if_pos hxy.symm]
        exact h
    · rcases Nat.lt_or_ge x.toNat y.toNat with h | h
      · left
        rw [lexLe, if_neg hxy]
        exact decide_eq_true h
      · right
        rw [lexLe, if_neg (fun e => hxy e.symm)]
        exact decide_eq_true (lt_of_le_of_ne h (fun e => hxy e.symm))

/-- The byte-order comparison is transitive. -/
theorem lexLe_trans : ∀ a b c : List Char,
    lexLe a b = true → lexLe b c = true → lexLe a c = true
  | [], _, _ => fun _ _ => rfl
  | x :: xs, [], _ => by
    intro hab
    exact absurd hab (by rw [lexLe]; simp)
  | _ :: _, _ :: _, [] => by
    intro _ hbc
    exact absurd hbc (by rw [lexLe]; simp)
  | x :: xs, y :: ys, z :: zs => by
    intro hab hbc
    rw [lexLe] at hab hbc ⊢
    by_cases h1 : x.toNat = y.toNat <;> by_cases h2 : y.toNat = z.toNat
    · rw [if_pos h1] at hab
      rw [if_pos h2] at hbc
      rw [if_pos (h1.trans h2)]
      exact lexLe_trans xs ys zs hab hbc
    · rw [if_neg h2] at hbc
      have hyz : y.toNat < z.toNat := of_decide_eq_true hbc
      rw [if_neg (by omega)]
      exact decide_eq_true (by omega)
    · rw [if_neg h1] at hab
      have hxy : x.toNat < y.toNat := of_decide_eq_true hab
      rw [if_neg (by omega)]
      exact decide_eq_true (by omega)
    · rw [if_neg h1] at hab
      rw [if_neg h2] at hbc
      have hxy : x.toNat < y.toNat := of_decide_eq_true hab
      have hyz : y.toNat < z.toNat := of_decide_eq_true hbc
      rw [if_neg (by omega)]
      exact decide_eq_true (by omega)

instance : IsTotal SearchRow rowLe := ⟨by
  intro a b
  rcases Nat.lt_trichotomy a.relevance b.relevance with h | h | h
  · exact Or.inr (Or.inl h)
  · rcases lexLe_total a.entry.name b.entry.name with hl | hl
    · exact Or.inl (Or.inr ⟨h, hl⟩)
    · exact Or.inr (Or.inr ⟨h.symm, hl⟩)
  · exact Or.inl (Or.inl h)⟩

instance : IsTrans SearchRow rowLe := ⟨by
  intro a b c hab hbc
  rcases hab with h1 | ⟨h1, l1⟩ <;> rcases hbc with h2 | ⟨h2, l2⟩
  · exact Or.inl (h2.trans h1)
  · exact Or.inl (by omega)
  · exact Or.inl (by omega)
  · exact Or.inr ⟨h1.trans h2, lexLe_trans _ _ _ l1 l2⟩⟩

/-! ### Concrete store used by the search claims -/

/-- A project row for the search examples. -/
def p1 : DBProject := ⟨1, "proj".toList, "/p".toList, 0⟩

/-- Entry with the query in its name (`authLogin`). -/
def e1 : Entry := ⟨1, 1, "a.ts".toList, "authLogin".toList,
  "function".toList, "x".toList, "x".toList, 1, 1, "token session".toList⟩

/-- Entry with the query only in its keywords (`auth token`). -/
def e2 : Entry := ⟨2, 1, "a.ts".toList, "login".toList, "function".toList,
  "x".toList, "x".toList, 1, 1, "auth token".toList⟩

/-- The two-entry store of the C3 example. -/
def dbC3 : DB := ⟨[p1], [e1, e2], 2, 3⟩

/-! ### Search claim theorems -/

/-- C3: the relevance score is assigned by the first matching tier — 100
on a name match regardless of the other fields, else 50 on a keywords
match, else 25 on a snippet match, else 10, never summed — and for query
`auth` the entry named `authLogin` (score 100) ranks strictly before the
entry named `login` with keywords `auth token` (score 50). -/
theorem c3_relevance_tiers :
    (∀ q e, likeContains q e.name = true → relevance q e = 100) ∧
      (∀ q e, likeContains q e.name = false →
        likeContains q e.keywords = true → relevance q e = 50) ∧
      (∀ q e, likeContains q e.name = false →
        likeContains q e.keywords = false →
        likeContains q e.snippet = true → relevance q e = 25) ∧
      (∀ q e, likeContains q e.name = false →
        likeContains q e.keywords = false →
        likeContains q e.snippet = false → relevance q e = 10) ∧
      (searchCode dbC3 ("auth".toList) none none 10).map
        (fun r => (r.entry.name, r.relevance)) =
        [("authLogin".toList, 100), ("login".toList, 50)] := by
  refine ⟨?_, ?_, ?_, ?_, by decide⟩
  · intro q e h
    simp [relevance, h]
  · intro q e h1 h2
    simp [relevance, h1, h2]
  · intro q e h1 h2 h3
    simp [relevance, h1, h2, h3]
  · intro q e h1 h2 h3
    simp [relevance, h1, h2, h3]

/-- C3 witness: the name tier applied to query `auth` and the
`authLogin` entry. -/
theorem c3_relevance_tiers_witness : relevance ("auth".toList) e1 = 100 :=
  c3_relevance_tiers.1 ("auth".toList) e1 (by decide)

/-- C4: for every query, filter combination and limit, the result list
is ordered by relevance descending with ties broken by ascending
byte-order name (each adjacent-or-later pair satisfies `rowLe`), and it
is the truncation to the limit of the fully sorted candidate list. -/
theorem c4_search_ordering (db : DB) (q : List Char)
    (pf tf : Option (List Char)) (lim : Nat) :
    List.Pairwise rowLe (searchCode db q pf tf lim) ∧
      searchCode db q pf tf lim = (searchAll db q pf tf).take lim ∧
      List.Pairwise rowLe (searchAll db q pf tf) := by
  refine ⟨?_, rfl, List.sorted_insertionSort rowLe _⟩
  exact List.Pairwise.sublist (List.take_sublist lim _)
    (List.sorted_insertionSort rowLe _)

/-- C9 counterexample: no search candidate can receive the fallback
score 10 — the `WHERE` filter tests exactly the three fields the `CASE`
tests (never the full `code` field), so an entry scoring 10 fails the
candidate filter. -/
theorem c9_fallbackTier_counterexample :
    ¬ ∃ (q : List Char) (e : Entry),
      isCandidate q e = true ∧ relevance q e = 10 := by
  rintro ⟨q, e, hc, hr⟩
  unfold isCandidate at hc
  unfold relevance at hr
  cases hn : likeContains q e.name <;> rw [hn] at hc hr
  · cases hk : likeContains q e.keywords <;> rw [hk] at hc hr
    · cases hs : likeContains q e.snippet <;> rw [hs] at hc hr
      · simp at hc
      · simp at hr
    · simp at hr
  · simp at hr

/-- C9 (amended): the `ELSE 10` relevance tier is unreachable — every
row `searchCode` returns has score 100, 50 or 25, because a match
occurring only in the stored full `code` text (possible only past
character 200, beyond the snippet) does not make the entry a candidate
at all. -/
theorem c9_fallbackTier_unreachable (db : DB) (q : List Char)
    (pf tf : Option (List Char)) (lim : Nat) (r : SearchRow)
    (h : r ∈ searchCode db q pf tf lim) :
    r.relevance = 100 ∨ r.relevance = 50 ∨ r.relevance = 25 := by
  unfold searchCode searchAll at h
  have h1 := (List.mem_insertionSort rowLe).1 (List.mem_of_mem_take h)
  unfold scoredRows at h1
  rcases List.mem_map.1 h1 with ⟨⟨e, pn⟩, hmem, hr⟩
  have hc : isCandidate q e = true := by
    have h3 := (List.mem_filter.1 hmem).2
    unfold passesFilters at h3
    rw [Bool.and_eq_true, Bool.and_eq_true] at h3
    exact h3.1.1
  rw [← hr]
  show relevance q e = 100 ∨ relevance q e = 50 ∨ relevance q e = 25
  unfold isCandidate at hc
  unfold relevance
  cases hn : likeContains q e.name <;> rw [hn] at hc
  · cases hk : likeContains q e.keywords <;> rw [hk] at hc
    · cases hs : likeContains q e.snippet <;> rw [hs] at hc
      · simp at hc
      · simp
    · simp
  · simp

/-- C9 witness: the amended statement at the first row returned for
query `auth` over the two-entry store. -/
theorem c9_fallbackTier_unreachable_witness :
    (⟨e1, "proj".toList, 100⟩ : SearchRow).relevance = 100 ∨
      (⟨e1, "proj".toList, 100⟩ : SearchRow).relevance = 50 ∨
      (⟨e1, "proj".toList, 100⟩ : SearchRow).relevance = 25 :=
  c9_fallbackTier_unreachable dbC3 ("auth".toList) none none 10
    ⟨e1, "proj".toList, 100⟩ (by decide)

/-! ### Re-indexing scenario (C2) -/

/-- A one-file project whose file `f.ts` contains `a() \x7b\x7d`. -/
def fileA : List Char × List Char := ("f.ts".toList, c5input)

/-- The store after `index /x --name p` on a fresh store. -/
def dbA : DB := indexProject emptyDB ("p".toList) ("/x".toList) [fileA]

/-- The store after re-running the same `index` invocation. -/
def dbB : DB := indexProject dbA ("p".toList) ("/x".toList) [fileA]

/-- C2 evaluation at the failing input: after the first run the store
holds one entry (id 1, project id 1); re-indexing under the same name
replaces the project row with a fresh row id 2 (SQLite `INSERT OR
REPLACE` under `AUTOINCREMENT`), so `clearProjectEntries` — called with
the *new* id — deletes nothing, and the store ends up with both the old
entry (id 1, orphaned under the vanished project id 1, still retrievable
through `getCodeEntry`) and the re-inserted entry (id 2): the previous
run's entries are *not* all deleted. -/
theorem c2_reindex_orphans :
    dbA.entries.map (fun e => (e.id, e.projectId)) = [(1, 1)] ∧
      dbB.entries.map (fun e => (e.id, e.projectId)) = [(1, 1), (2, 2)] ∧
      dbB.projects.map (fun p => p.id) = [2] ∧
      getCodeEntryD dbB 1 =
        some ⟨1, 1, "f.ts".toList, "a".toList, "function".toList, c5input,
          c5input, 1, 2, []⟩ ∧
      (searchCode dbB [] none none 100).map (fun r => r.entry.id) = [2] := by
  decide

/-! ### Error handling (C8) -/

/-- C8: the core raises only NotFound errors — `updateProject`,
`getCode` and `removeProject` fail exactly when the referenced project
name or entry id is absent, leaving the store untouched (the check
precedes any write), succeed without raising when the referent exists,
and empty search or extraction results are ordinary values, not
errors. -/
theorem c8_notFound_only :
    (∀ db name files, getProject db name = none →
      updateProject db name files =
        .error ("Project not found: ".toList ++ name) ∧
        stateAfter (updateProject db name files) db = db) ∧
      (∀ db name files p, getProject db name = some p →
        updateProject db name files = .ok (indexProject db name p.path files)) ∧
      (∀ db id, getCodeEntryD db id = none →
        getCode db id = .error ("Code entry not found".toList)) ∧
      (∀ db id e, getCodeEntryD db id = some e → getCode db id = .ok e.code) ∧
      (∀ db name, getProject db name = none →
        removeProject db name =
          .error ("Project not found: ".toList ++ name) ∧
          stateAfter (removeProject db name) db = db) ∧
      (∀ db name p, getProject db name = some p →
        ∃ d, removeProject db name = .ok d) ∧
      (∀ db q pf tf lim, db.entries = [] → searchCode db q pf tf lim = []) ∧
      extractFunctions ("let x = 3;".toList) = [] := by
  refine ⟨?_, ?_, ?_, ?_, ?_, ?_, ?_, by decide⟩
  · intro db name files h
    unfold updateProject
    rw [h]
    exact ⟨rfl, rfl⟩
  · intro db name files p h
    unfold updateProject
    rw [h]
  · intro db id h
    unfold getCode
    rw [h]
  · intro db id e h
    unfold getCode
    rw [h]
  · intro db name h
    unfold removeProject
    rw [h]
    exact ⟨rfl, rfl⟩
  · intro db name p h
    unfold removeProject
    rw [h]
    exact ⟨_, rfl⟩
  · intro db q pf tf lim h
    unfold searchCode searchAll scoredRows joinedRows
    rw [h]
    simp [List.insertionSort]

/-- C8 witness: removing and updating the absent project `x` on the
empty store errors with the store unchanged, and fetching the absent
entry id 1 errors. -/
theorem c8_notFound_only_witness :
    (updateProject emptyDB ("x".toList) [] =
      .error ("Project not found: ".toList ++ "x".toList) ∧
      stateAfter (updateProject emptyDB ("x".toList) []) emptyDB = emptyDB) ∧
      getCode emptyDB 1 = .error ("Code entry not found".toList) ∧
      removeProject emptyDB ("x".toList) =
        .error ("Project not found: ".toList ++ "x".toList) :=
  ⟨c8_notFound_only.1 emptyDB ("x".toList) [] rfl,
    c8_notFound_only.2.2.1 emptyDB 1 rfl,
    (c8_notFound_only.2.2.2.2.1 emptyDB ("x".toList) rfl).1⟩

end Devmem
